import Mathlib

/-!
# HTTP/0.9 over QUIC: the interop client (`interop/http09/client.go`)

A shallow embedding of `RoundTripper.RoundTrip`, `client.RoundTrip`,
`client.doRequest`, `hostnameFromRequest` and `authorityAddr`.

Go strings are Lean `String`s, handled through their character lists. The
functions below only ever look for the ASCII characters `:`, `[`, `]`, `%`, `.`
and `-`, so on valid UTF-8 text the byte positions Go computes and the character
positions computed here cut the text at the same places.

What the package calls but does not define is kept apart:

* `net.SplitHostPort`, `net.JoinHostPort`, `strings.HasPrefix`,
  `strings.HasSuffix` (Go standard library) are small pure functions and are
  written out;
* `idna.ToASCII` (golang.org/x/net/idna) is a parameter `toASCII` of
  `authorityAddr`; `idna.ToASCII` below writes out the library function (the
  `Punycode` profile) so that the embedding can be run on concrete authorities;
* `quic.DialAddr`, `Session.OpenStreamSync`, `Stream.Write`, `Stream.Close` are
  the fields of an environment `Env`; every call is appended to a trace.
-/

namespace http09

/-! ## Go standard library: `strings`, `net` -/

/-- Go `strings.IndexByte`: position of the first `c` in `s`, `none` for Go's `-1`. -/
def indexByte : List Char → Char → Option Nat
  | [], _ => none
  | x :: xs, c => if x = c then some 0 else (indexByte xs c).map (· + 1)

/-- Go `net.last` (`strings.LastIndexByte`): position of the last `c` in `s`,
`none` for Go's `-1`. -/
def lastIndexByte : List Char → Char → Option Nat
  | [], _ => none
  | x :: xs, c =>
    match lastIndexByte xs c with
    | some i => some (i + 1)
    | none => if x = c then some 0 else none

/-- Go `strings.HasPrefix`. -/
def hasPrefix (s p : String) : Bool := p.data.isPrefixOf s.data

/-- Go `strings.HasSuffix`. -/
def hasSuffix (s p : String) : Bool := p.data.isSuffixOf s.data

/-- Go `net.SplitHostPort`. The error carries the `Err` text of the `AddrError`. -/
def splitHostPort (hostport : String) : Except String (String × String) :=
  let hp := hostport.data
  match lastIndexByte hp ':' with
  | none => .error "missing port in address"
  | some i =>
    let finish (host : List Char) (j k : Nat) : Except String (String × String) :=
      if (indexByte (hp.drop j) '[').isSome then .error "unexpected '[' in address"
      else if (indexByte (hp.drop k) ']').isSome then .error "unexpected ']' in address"
      else .ok (⟨host⟩, ⟨hp.drop (i + 1)⟩)
    if hp.head? = some '[' then
      match indexByte hp ']' with
      | none => .error "missing ']' in address"
      | some e =>
        if e + 1 = hp.length then .error "missing port in address"
        else if e + 1 = i then finish ((hp.take e).drop 1) 1 (e + 1)
        else if hp.get? (e + 1) = some ':' then .error "too many colons in address"
        else .error "missing port in address"
    else
      let host := hp.take i
      if (indexByte host ':').isSome then .error "too many colons in address"
      else finish host 0 0

/-- Go `net.JoinHostPort`: the host is taken for an IPv6 literal, and put in
brackets, when it holds a colon. -/
def joinHostPort (host port : String) : String :=
  if (indexByte host.data ':').isSome then
    "[" ++ host ++ "]:" ++ port
  else
    host ++ ":" ++ port

/-! ## golang.org/x/net/idna: `ToASCII`

`idna.ToASCII(s)` is `Punycode.process(s, true)`. The `Punycode` profile has no
mapping, no label validation, no Bidi rule and no length check, so `process`
comes to this: the name is cut at its dots; a label that starts with `xn--` is
decoded (an error if it is no punycode), any other label is kept; then every
label that is not all ASCII is encoded; the labels are joined again with dots.
`decode` and `encode` are those of `punycode.go` (RFC 3492), with `int32`
overflow reported as the library's `madd` reports it. A Go `rune` is a `Char`.
-/

namespace idna

/-- The punycode parameter `base`. -/
def base : Nat := 36

/-- The punycode parameter `damp`. -/
def damp : Nat := 700

/-- The punycode parameter `initialBias`. -/
def initialBias : Nat := 72

/-- The punycode parameter `initialN`. -/
def initialN : Nat := 128

/-- The punycode parameter `skew`. -/
def skew : Nat := 38

/-- The punycode parameter `tmax`. -/
def tmax : Nat := 26

/-- The punycode parameter `tmin`. -/
def tmin : Nat := 1

/-- Go `math.MaxInt32`. -/
def maxInt32 : Nat := 2147483647

/-- Go `utf8.MaxRune`. -/
def maxRune : Nat := 0x10FFFF

/-- `madd(a, b, c)`: `a + b * c`, `none` when the sum does not fit an `int32`. -/
def madd (a b c : Nat) : Option Nat :=
  if b * c + a > maxInt32 then none else some (a + b * c)

/-- `decodeDigit` of punycode.go: `0-9` are 26-35, letters of either case 0-25. -/
def decodeDigit (x : Char) : Option Nat :=
  if '0' ≤ x ∧ x ≤ '9' then some (x.toNat - 48 + 26)
  else if 'A' ≤ x ∧ x ≤ 'Z' then some (x.toNat - 65)
  else if 'a' ≤ x ∧ x ≤ 'z' then some (x.toNat - 97)
  else none

/-- `encodeDigit` of punycode.go: 0-25 are `a-z`, 26-35 are `0-9`. -/
def encodeDigit (digit : Nat) : Char :=
  if digit < 26 then Char.ofNat (digit + 97) else Char.ofNat (digit - 26 + 48)

/-- The loop of `adapt`: `for delta > ((base-tmin)*tmax)/2`. -/
def adaptLoop : Nat → Nat → Nat → Nat × Nat
  | 0, delta, k => (delta, k)
  | fuel + 1, delta, k =>
    if delta > ((base - tmin) * tmax) / 2 then adaptLoop fuel (delta / (base - tmin)) (k + base)
    else (delta, k)

/-- `adapt` of punycode.go, the bias adaptation of RFC 3492 section 6.1. -/
def adapt (delta numPoints : Nat) (firstTime : Bool) : Nat :=
  let delta := if firstTime then delta / damp else delta / 2
  let delta := delta + delta / numPoints
  let (delta, k) := adaptLoop delta delta 0
  k + (base - tmin + 1) * delta / (delta + skew)

/-- The threshold `t` of a digit position: `k - bias` clamped to `tmin..tmax`. -/
def threshold (k bias : Nat) : Nat :=
  if k ≤ bias then tmin else if k ≥ bias + tmax then tmax else k - bias

/-- One generalized variable-length integer of `decode`: the loop
`for k := base; ; k += base` over the digits at `pos`. Returns the new `i` and
the text after the integer. -/
def decodeInt : List Char → Nat → Nat → Nat → Nat → Option (Nat × List Char)
  | [], _, _, _, _ => none
  | x :: rest, i, w, k, bias =>
    match decodeDigit x with
    | none => none
    | some digit =>
      match madd i w digit with
      | none => none
      | some i =>
        let t := threshold k bias
        if digit < t then some (i, rest)
        else
          match madd 0 w (base - t) with
          | none => none
          | some w => decodeInt rest i w (k + base) bias

/-- Go `string(rune)`: a surrogate becomes U+FFFD. -/
def runeToChar (n : Nat) : Char :=
  if n.isValidChar then Char.ofNat n else Char.ofNat 0xFFFD

/-- The loop `for pos < len(encoded)` of `decode`. -/
def decodeLoop : Nat → List Char → List Char → Nat → Nat → Nat → Option (List Char)
  | 0, _, _, _, _, _ => none
  | fuel + 1, rest, output, i, n, bias =>
    match rest with
    | [] => some output
    | _ :: _ =>
      match decodeInt rest i 1 base bias with
      | none => none
      | some (i1, rest) =>
        if output.length ≥ 1024 then none
        else
          let x := output.length + 1
          let bias := adapt (i1 - i) x (i = 0)
          let n := n + i1 / x
          let i2 := i1 % x
          if n > maxRune then none
          else decodeLoop fuel rest (output.take i2 ++ runeToChar n :: output.drop i2) (i2 + 1) n bias

/-- `decode` of punycode.go. The text before the last `-` is copied as it is; a
last `-` at position 0 is an error; when the last `-` ends the text there is
nothing more to decode and the text before it is the result. -/
def decode (encoded : List Char) : Option (List Char) :=
  if encoded = [] then some []
  else
    match lastIndexByte encoded '-' with
    | some 0 => none
    | some j =>
      if j + 1 = encoded.length then some (encoded.take j)
      else decodeLoop (encoded.length + 1) (encoded.drop (j + 1)) (encoded.take j) 0 initialN initialBias
    | none => decodeLoop (encoded.length + 1) encoded [] 0 initialN initialBias

/-- The digits of `q`: the loop `for k := base; ; k += base` of `encode`
with the final `encodeDigit(q)`. -/
def encodeInt : Nat → Nat → Nat → Nat → List Char
  | 0, q, _, _ => [encodeDigit q]
  | fuel + 1, q, k, bias =>
    let t := threshold k bias
    if q < t then [encodeDigit q]
    else encodeDigit (t + (q - t) % (base - t)) :: encodeInt fuel ((q - t) / (base - t)) (k + base) bias

/-- The variables of `encode` that its loops update. -/
structure EncState where
  output : List Char
  delta : Nat
  bias : Nat
  h : Nat
  remaining : Nat

/-- The inner `for _, r := range s` of `encode` at the code point `n`. -/
def encodeRunes (b n : Nat) : List Char → EncState → Option EncState
  | [], st => some st
  | r :: rs, st =>
    if r.toNat < n then
      if st.delta + 1 > maxInt32 then none
      else encodeRunes b n rs { st with delta := st.delta + 1 }
    else if r.toNat > n then encodeRunes b n rs st
    else
      encodeRunes b n rs
        { output := st.output ++ encodeInt st.delta st.delta base st.bias
          delta := 0
          bias := adapt st.delta (st.h + 1) (st.h = b)
          h := st.h + 1
          remaining := st.remaining - 1 }

/-- The smallest code point of `s` that is at least `n` (`0x7fffffff` if none). -/
def nextCodePoint (s : List Char) (n : Nat) : Nat :=
  s.foldl (fun m r => if m > r.toNat ∧ r.toNat ≥ n then r.toNat else m) 0x7fffffff

/-- The loop `for remaining != 0` of `encode`. -/
def encodeLoop (s : List Char) (b : Nat) : Nat → Nat → EncState → Option (List Char)
  | 0, _, _ => none
  | fuel + 1, n, st =>
    if st.remaining = 0 then some st.output
    else
      let m := nextCodePoint s n
      match madd st.delta (m - n) (st.h + 1) with
      | none => none
      | some delta =>
        match encodeRunes b m s { st with delta := delta } with
        | none => none
        | some st => encodeLoop s b fuel (m + 1) { st with delta := st.delta + 1 }

/-- `encode` of punycode.go: the prefix, the ASCII characters of `s` in order, a
`-` if there are any, then the other characters as digits (`encodeDigit` writes
letters in lower case). -/
def encode (pre s : List Char) : Option (List Char) :=
  let basic := s.filter (fun r => r.toNat < 0x80)
  let b := basic.length
  let remaining := s.length - b
  let output := pre ++ basic ++ (if b > 0 then ['-'] else [])
  encodeLoop s b (remaining + 1) initialN
    { output := output, delta := 0, bias := initialBias, h := b, remaining := remaining }

/-- Go `strings.Split(s, ".")`: the labels of a name. -/
def splitDots : List Char → List (List Char)
  | [] => [[]]
  | c :: cs =>
    match splitDots cs with
    | [] => [[c]]
    | l :: ls => if c = '.' then [] :: l :: ls else (c :: l) :: ls

/-- Go `strings.Join(labels, ".")`. -/
def joinDots : List (List Char) → List Char
  | [] => []
  | [l] => l
  | l :: ls => l ++ '.' :: joinDots ls

/-- The ACE prefix `xn--`. -/
def acePrefix : List Char := ['x', 'n', '-', '-']

/-- What `process` does to one label: decode it if it has the ACE prefix, then
encode it if it is not all ASCII. `none` when `decode` or `encode` fails. -/
def processLabel (label : List Char) : Option (List Char) :=
  let u := if acePrefix.isPrefixOf label then decode (label.drop 4) else some label
  match u with
  | none => none
  | some u => if u.all (fun r => r.toNat < 0x80) then some u else encode acePrefix u

/-- The labels of a name after `process`; `none` when a label fails, which is
when `process` returns an error. -/
def processLabels : List (List Char) → Option (List (List Char))
  | [] => some []
  | label :: labels =>
    match processLabel label, processLabels labels with
    | some a, some as => some (a :: as)
    | _, _ => none

/-- The library's `idna.ToASCII`: `some a` for the result `a` with a nil error,
`none` for an error. -/
def ToASCII (s : String) : Option String :=
  (processLabels (splitDots s.data)).map (fun ls => ⟨joinDots ls⟩)

end idna

/-! ## `authorityAddr` -/

/-- The source's `authorityAddr` (client.go, lines 126-145); `toASCII s` is
`some a` when `idna.ToASCII(s)` returns `a` with a nil error and `none` when it
returns an error. -/
def authorityAddr (toASCII : String → Option String) (scheme authority : String) : String :=
  let (host, port) :=
    match splitHostPort authority with
    | .ok (host, port) => (host, port)
    | .error _ => (authority, if scheme = "http" then "80" else "443")
  let host :=
    match toASCII host with
    | some a => a
    | none => host
  if hasPrefix host "[" && hasSuffix host "]" then
    host ++ ":" ++ port
  else
    joinHostPort host port

/-- The authority carries a port: `net.SplitHostPort` returns no error. -/
def carriesPort (authority : String) : Bool :=
  match splitHostPort authority with
  | .ok _ => true
  | .error _ => false

/-- The host is a bracket-enclosed literal, as tested by `authorityAddr`. -/
def bracketEnclosed (host : String) : Bool := hasPrefix host "[" && hasSuffix host "]"

/-- The host after the IDNA step of `authorityAddr`: the ASCII form, or the
host itself when `idna.ToASCII` returns an error. -/
def idnaForm (toASCII : String → Option String) (host : String) : String :=
  (toASCII host).getD host

/-- A character of an ASCII hostname or dotted IPv4 address. -/
def isHostnameChar (c : Char) : Bool := c.isAlphanum || c == '-' || c == '.' || c == '_'

/-- A character of an IPv6 address in text form (with an IPv4 tail or a zone). -/
def isIPv6Char (c : Char) : Bool := isHostnameChar c || c == ':' || c == '%'

/-- An ASCII hostname or an IPv4 address: letters, digits, hyphens, dots. -/
def asciiHostname (h : String) : Bool := h.data.all isHostnameChar

/-- An IPv6 address in text form: at least two colons. -/
def asciiIPv6 (h : String) : Bool := h.data.all isIPv6Char && decide (2 ≤ h.data.count ':')

/-- An ASCII host: a hostname, an IPv4 address or an IPv6 address. -/
def asciiHost (h : String) : Bool := asciiHostname h || asciiIPv6 h

/-- A port: a number or a service name. -/
def isPort (p : String) : Bool := p.data.all (fun c => c.isAlphanum || c == '-')

/-! ## Requests, responses, errors -/

/-- The fields of `url.URL` the package reads. -/
structure URL where
  Host : String
  Path : String
  deriving DecidableEq

/-- The fields of `http.Request` the package reads; `URL = none` is a nil `*url.URL`. -/
structure Request where
  Method : String
  URL : Option URL
  deriving DecidableEq

/-- The `http.Response` built by `doRequest`; `Body` is the stream wrapped by
`ioutil.NopCloser`. -/
structure Response (Strm : Type) where
  Proto : String
  ProtoMajor : Nat
  ProtoMinor : Nat
  Request : Request
  Body : Strm
  deriving DecidableEq

/-- A Go `error` value, by where it was made: `new text` is the value of an
`errors.New(text)` in this package (a fresh value, equal to no other error),
`ext e` an error handed back by quic-go. -/
inductive GoError (E : Type) where
  | new (text : String)
  | ext (e : E)
  deriving DecidableEq

/-- How a call ends: it returns `(rsp, err)`, it panics (a nil dereference), or
it never returns (`Lock` on a mutex that is held). -/
inductive Outcome (Strm E : Type) where
  | ret (rsp : Option (Response Strm)) (err : Option (GoError E))
  | panic
  | blocked
  deriving DecidableEq

/-- The fields of `tls.Config`: `NextProtos`, and all the others as one value. -/
structure TLSConfig (Cfg : Type) where
  NextProtos : List String
  rest : Cfg
  deriving DecidableEq

/-! ## quic-go as an environment -/

/-- A call into quic-go, as recorded in the trace. -/
inductive Event (Cfg QC Sess Strm : Type) where
  | dialAddr (addr : String) (tlsConf : Option (TLSConfig Cfg)) (config : QC)
  | openStreamSync (sess : Sess)
  | write (str : Strm) (p : String)
  | close (str : Strm)
  deriving DecidableEq

/-- True for a `quic.DialAddr` call. -/
def Event.isDial {Cfg QC Sess Strm : Type} : Event Cfg QC Sess Strm → Bool
  | .dialAddr _ _ _ => true
  | _ => false

/-- True for a `Session.OpenStreamSync` call. -/
def Event.isOpenStream {Cfg QC Sess Strm : Type} : Event Cfg QC Sess Strm → Bool
  | .openStreamSync _ => true
  | _ => false

/-- What quic-go answers. Each answer may depend on every call made so far (the
trace) and on the arguments; a nil session, stream or error is `none`. -/
structure Env (Cfg QC Sess Strm E : Type) where
  dialAddr : List (Event Cfg QC Sess Strm) → String → Option (TLSConfig Cfg) → QC →
    Option Sess × Option E
  openStreamSync : List (Event Cfg QC Sess Strm) → Sess → Option Strm × Option E
  write : List (Event Cfg QC Sess Strm) → Strm → String → Option E
  close : List (Event Cfg QC Sess Strm) → Strm → Option E

/-! ## `client` -/

/-- The source's `client` struct; `once` is true when the `sync.Once` has run. -/
structure client (Cfg QC Sess E : Type) where
  hostname : String
  tlsConf : Option (TLSConfig Cfg)
  quicConf : QC
  once : Bool
  sess : Option Sess
  dialErr : Option E
  deriving DecidableEq

section
variable {Cfg QC Sess Strm E : Type}

/-- The source's `client.doRequest` (lines 90-110). It does not write to the
client, so it returns the outcome and the trace. -/
def client.doRequest (env : Env Cfg QC Sess Strm E) (c : client Cfg QC Sess E)
    (tr : List (Event Cfg QC Sess Strm)) (req : Request) :
    Outcome Strm E × List (Event Cfg QC Sess Strm) :=
  match c.sess with
  | none => (.panic, tr)
  | some sess =>
    let opened := env.openStreamSync tr sess
    let tr := tr ++ [.openStreamSync sess]
    match opened.2 with
    | some e => (.ret none (some (.ext e)), tr)
    | none =>
      match req.URL with
      | none => (.panic, tr)
      | some u =>
        let cmd := "GET " ++ u.Path ++ "\r\n"
        match opened.1 with
        | none => (.panic, tr)
        | some str =>
          let werr := env.write tr str cmd
          let tr := tr ++ [.write str cmd]
          match werr with
          | some e => (.ret none (some (.ext e)), tr)
          | none =>
            let cerr := env.close tr str
            let tr := tr ++ [.close str]
            match cerr with
            | some e => (.ret none (some (.ext e)), tr)
            | none =>
              (.ret (some { Proto := "HTTP/0.9", ProtoMajor := 0, ProtoMinor := 9,
                            Request := req, Body := str }) none, tr)

/-- The body of `c.once.Do(...)` in `client.RoundTrip` (lines 81-83). -/
def client.dial (env : Env Cfg QC Sess Strm E) (c : client Cfg QC Sess E)
    (tr : List (Event Cfg QC Sess Strm)) :
    client Cfg QC Sess E × List (Event Cfg QC Sess Strm) :=
  if c.once then (c, tr)
  else
    let dialed := env.dialAddr tr c.hostname c.tlsConf c.quicConf
    ({ c with once := true, sess := dialed.1, dialErr := dialed.2 },
      tr ++ [.dialAddr c.hostname c.tlsConf c.quicConf])

/-- The source's `client.RoundTrip` (lines 80-88). -/
def client.RoundTrip (env : Env Cfg QC Sess Strm E) (c : client Cfg QC Sess E)
    (tr : List (Event Cfg QC Sess Strm)) (req : Request) :
    Outcome Strm E × client Cfg QC Sess E × List (Event Cfg QC Sess Strm) :=
  let dialed := c.dial env tr
  match dialed.1.dialErr with
  | some e => (.ret none (some (.ext e)), dialed.1, dialed.2)
  | none =>
    let done := dialed.1.doRequest env dialed.2 req
    (done.1, dialed.1, done.2)

/-- A sequence of `client.RoundTrip` calls on one client, one after the other. -/
def client.roundTrips (env : Env Cfg QC Sess Strm E) (c : client Cfg QC Sess E)
    (tr : List (Event Cfg QC Sess Strm)) :
    List Request → List (Outcome Strm E) × client Cfg QC Sess E × List (Event Cfg QC Sess Strm)
  | [] => ([], c, tr)
  | req :: reqs =>
    let first := c.RoundTrip env tr req
    let later := client.roundTrips env first.2.1 first.2.2 reqs
    (first.1 :: later.1, later.2.1, later.2.2)

/-! ## `RoundTripper` -/

/-- The source's `RoundTripper` struct. `clients = none` is the nil map; the map
holds `*client`, so an entry is the client's current state. -/
structure RoundTripper (Cfg QC Sess E : Type) where
  mutexLocked : Bool
  TLSClientConfig : Option (TLSConfig Cfg)
  QuicConfig : QC
  clients : Option (List (String × client Cfg QC Sess E))

/-- Go map assignment `m[k] = v`. -/
def mapSet {V : Type} (m : List (String × V)) (k : String) (v : V) : List (String × V) :=
  match m with
  | [] => [(k, v)]
  | (k1, v1) :: rest => if k1 = k then (k, v) :: rest else (k1, v1) :: mapSet rest k v

/-- The source's `hostnameFromRequest` (lines 119-124). -/
def hostnameFromRequest (req : Request) : String :=
  match req.URL with
  | some u => u.Host
  | none => ""

/-- The source's `RoundTripper.RoundTrip` (lines 32-55). `h09alpn` is the
package constant of that name, declared in another file of the package. -/
def RoundTripper.RoundTrip (env : Env Cfg QC Sess Strm E) (toASCII : String → Option String)
    (h09alpn : String) (r : RoundTripper Cfg QC Sess E) (tr : List (Event Cfg QC Sess Strm))
    (req : Request) :
    Outcome Strm E × RoundTripper Cfg QC Sess E × List (Event Cfg QC Sess Strm) :=
  if req.Method ≠ "GET" then
    (.ret none (some (.new "only GET requests supported")), r, tr)
  else if r.mutexLocked then
    (.blocked, r, tr)
  else
    let hostname := authorityAddr toASCII "https" (hostnameFromRequest req)
    let clients := r.clients.getD []
    let run (c : client Cfg QC Sess E) (clients : List (String × client Cfg QC Sess E)) :=
      let done := c.RoundTrip env tr req
      (done.1, { r with clients := some (mapSet clients hostname done.2.1) }, done.2.2)
    match clients.lookup hostname with
    | some c => run c clients
    | none =>
      match r.TLSClientConfig with
      | none => (.panic, { r with mutexLocked := true, clients := some clients }, tr)
      | some conf =>
        let tlsConf : TLSConfig Cfg := { conf with NextProtos := [h09alpn] }
        let c : client Cfg QC Sess E :=
          { hostname := hostname, tlsConf := some tlsConf, quicConf := r.QuicConfig,
            once := false, sess := none, dialErr := none }
        run c (mapSet clients hostname c)

/-- The number of `quic.DialAddr` calls in a trace. -/
def dialCount (tr : List (Event Cfg QC Sess Strm)) : Nat := tr.countP Event.isDial

end

/-! ## Two environments to run the embedding in -/

/-- Every dial fails with the error `e`. -/
def envDialFails (e : String) : Env Unit Unit Nat Nat String where
  dialAddr := fun _ _ _ _ => (none, some e)
  openStreamSync := fun _ _ => (none, none)
  write := fun _ _ _ => none
  close := fun _ _ => none

/-- Every call succeeds: the session is 1, a stream is numbered by the length of
the trace at the time it is opened. -/
def envOK : Env Unit Unit Nat Nat String where
  dialAddr := fun _ _ _ _ => (some 1, none)
  openStreamSync := fun tr _ => (some tr.length, none)
  write := fun _ _ _ => none
  close := fun _ _ => none

/-- A client as `RoundTripper.RoundTrip` makes it (lines 46-50). -/
def freshClient (hostname : String) : client Unit Unit Nat String :=
  { hostname := hostname, tlsConf := some { NextProtos := ["hq-29"], rest := () },
    quicConf := (), once := false, sess := none, dialErr := none }

/-- A `RoundTripper` before its first call: the zero value with a TLS config. -/
def freshRoundTripper : RoundTripper Unit Unit Nat String :=
  { mutexLocked := false, TLSClientConfig := some { NextProtos := [], rest := () },
    QuicConfig := (), clients := none }

/-! ## Lemmas on `strings` and `net` -/

theorem indexByte_eq_none {l : List Char} {c : Char} (h : c ∉ l) : indexByte l c = none := by
  induction l with
  | nil => rfl
  | cons x xs ih =>
    have hx : x ≠ c := fun e => h (by simp [e])
    have hxs : c ∉ xs := fun e => h (by simp [e])
    simp [indexByte, hx, ih hxs]

theorem indexByte_isSome {l : List Char} {c : Char} (h : c ∈ l) :
    (indexByte l c).isSome = true := by
  induction l with
  | nil => simp at h
  | cons x xs ih =>
    by_cases hx : x = c
    · simp [indexByte, hx]
    · have hxs : c ∈ xs := by
        rcases List.mem_cons.mp h with h | h
        · exact absurd h.symm hx
        · exact h
      simp [indexByte, hx, ih hxs]

theorem indexByte_append {l : List Char} {c : Char} (h : c ∉ l) (q : List Char) :
    indexByte (l ++ c :: q) c = some l.length := by
  induction l with
  | nil => simp [indexByte]
  | cons x xs ih =>
    have hx : x ≠ c := fun e => h (by simp [e])
    have hxs : c ∉ xs := fun e => h (by simp [e])
    simp [indexByte, hx, ih hxs]

theorem lastIndexByte_eq_none {l : List Char} {c : Char} (h : c ∉ l) :
    lastIndexByte l c = none := by
  induction l with
  | nil => rfl
  | cons x xs ih =>
    have hx : x ≠ c := fun e => h (by simp [e])
    have hxs : c ∉ xs := fun e => h (by simp [e])
    simp [lastIndexByte, hx, ih hxs]

theorem lastIndexByte_append (l : List Char) {c : Char} {q : List Char} (h : c ∉ q) :
    lastIndexByte (l ++ c :: q) c = some l.length := by
  induction l with
  | nil => simp [lastIndexByte, lastIndexByte_eq_none h]
  | cons x xs ih => simp [lastIndexByte, ih]

theorem lastIndexByte_isSome {l : List Char} {c : Char} (h : c ∈ l) :
    (lastIndexByte l c).isSome = true := by
  induction l with
  | nil => simp at h
  | cons x xs ih =>
    unfold lastIndexByte
    cases hl : lastIndexByte xs c with
    | some j => rfl
    | none =>
      rcases List.mem_cons.mp h with h | h
      · simp [h]
      · have := ih h
        simp [hl] at this

/-- Where `lastIndexByte` finds `c`, the text splits there and `c` does not occur after it. -/
theorem lastIndexByte_some {l : List Char} {c : Char} {i : Nat}
    (h : lastIndexByte l c = some i) : l.take i ++ c :: l.drop (i + 1) = l ∧ c ∉ l.drop (i + 1) ∧
      i < l.length := by
  induction l generalizing i with
  | nil => simp [lastIndexByte] at h
  | cons x xs ih =>
    unfold lastIndexByte at h
    cases hl : lastIndexByte xs c with
    | some j =>
      rw [hl] at h
      simp only [Option.some.injEq] at h
      subst h
      obtain ⟨h1, h2, h3⟩ := ih hl
      exact ⟨by simp [h1], by simpa using h2, by simpa using h3⟩
    | none =>
      rw [hl] at h
      by_cases hx : x = c
      · simp [hx] at h
        subst h
        subst hx
        have hxs : x ∉ xs := by
          intro hm
          have := lastIndexByte_isSome hm
          simp [hl] at this
        exact ⟨by simp, by simpa using hxs, by simp⟩
      · simp [hx] at h

theorem joinHostPort_data (h p : String) :
    (joinHostPort h p).data =
      if ':' ∈ h.data then '[' :: h.data ++ ']' :: ':' :: p.data
      else h.data ++ ':' :: p.data := by
  unfold joinHostPort
  by_cases h1 : ':' ∈ h.data
  · simp [h1, indexByte_isSome h1, String.data_append]
  · simp [h1, indexByte_eq_none h1, String.data_append]

/-- `net.SplitHostPort` undoes `net.JoinHostPort` when neither part holds a
bracket and the port holds no colon. -/
theorem splitHostPort_joinHostPort (h p : String)
    (hh1 : '[' ∉ h.data) (hh2 : ']' ∉ h.data)
    (hp0 : ':' ∉ p.data) (hp1 : '[' ∉ p.data) (hp2 : ']' ∉ p.data) :
    splitHostPort (joinHostPort h p) = .ok (h, p) := by
  unfold splitHostPort
  simp only [joinHostPort_data]
  by_cases hc : ':' ∈ h.data
  · rw [if_pos hc]
    have e1 : '[' :: h.data ++ ']' :: ':' :: p.data = ('[' :: h.data ++ [']']) ++ ':' :: p.data := by
      simp
    have l1 : lastIndexByte ('[' :: h.data ++ ']' :: ':' :: p.data) ':' = some (h.data.length + 2) := by
      rw [e1, lastIndexByte_append _ hp0]; simp
    have hd : ('[' :: h.data ++ ']' :: ':' :: p.data).head? = some '[' := rfl
    have l2 : indexByte ('[' :: h.data ++ ']' :: ':' :: p.data) ']' = some (h.data.length + 1) := by
      have : ']' ∉ '[' :: h.data := by simp [hh2]
      have := indexByte_append this (':' :: p.data)
      simpa using this
    have len : ¬ (h.data.length + 1 + 1 = ('[' :: h.data ++ ']' :: ':' :: p.data).length) := by
      simp
    have l3 : indexByte (List.drop 1 ('[' :: h.data ++ ']' :: ':' :: p.data)) '[' = none :=
      indexByte_eq_none (by simp [hh1, hp1])
    have l4 : indexByte (List.drop (h.data.length + 1 + 1) ('[' :: h.data ++ ']' :: ':' :: p.data))
        ']' = none := by
      have : List.drop (h.data.length + 1 + 1) ('[' :: h.data ++ ']' :: ':' :: p.data) =
          ':' :: p.data := by
        rw [e1, List.drop_append_eq_append_drop]; simp
      rw [this]
      exact indexByte_eq_none (by simp [hp2])
    have t1 : List.drop 1 (List.take (h.data.length + 1) ('[' :: h.data ++ ']' :: ':' :: p.data)) =
        h.data := by
      simp
    have d2 : List.drop (h.data.length + 2 + 1) ('[' :: h.data ++ ']' :: ':' :: p.data) = p.data := by
      rw [e1, List.drop_append_eq_append_drop]; simp
    simp only [l1, hd, l2, if_true, if_neg len, l3, l4, t1, d2, Option.isSome_none,
      Bool.false_eq_true, if_false]
  · rw [if_neg hc]
    have hc1 : ':' ∉ h.data := hc
    have l1 : lastIndexByte (h.data ++ ':' :: p.data) ':' = some h.data.length :=
      lastIndexByte_append _ hp0
    have l2 : ¬ ((h.data ++ ':' :: p.data).head? = some '[') := by
      cases hd : h.data with
      | nil => simp
      | cons x xs =>
        have : x ≠ '[' := fun e => hh1 (by simp [hd, e])
        simp [this]
    have l3 : indexByte (List.drop 0 (h.data ++ ':' :: p.data)) '[' = none :=
      indexByte_eq_none (by simp [hh1, hp1])
    have l4 : indexByte (List.drop 0 (h.data ++ ':' :: p.data)) ']' = none :=
      indexByte_eq_none (by simp [hh2, hp2])
    have t1 : List.take h.data.length (h.data ++ ':' :: p.data) = h.data := by simp
    have l5 : indexByte h.data ':' = none := indexByte_eq_none hc1
    have d2 : List.drop (h.data.length + 1) (h.data ++ ':' :: p.data) = p.data := by
      rw [List.drop_append_eq_append_drop]; simp
    simp only [l1, if_neg l2, l3, l4, t1, l5, d2, Option.isSome_none, Bool.false_eq_true, if_false]

/-! ## Lemmas on `authorityAddr` -/

theorem isIPv6Char_ne_open {c : Char} (h : isIPv6Char c = true) : c ≠ '[' := by
  rintro rfl; revert h; decide

theorem isIPv6Char_ne_close {c : Char} (h : isIPv6Char c = true) : c ≠ ']' := by
  rintro rfl; revert h; decide

theorem isHostnameChar_ne_colon {c : Char} (h : isHostnameChar c = true) : c ≠ ':' := by
  rintro rfl; revert h; decide

theorem isIPv6Char_of_isHostnameChar {c : Char} (h : isHostnameChar c = true) :
    isIPv6Char c = true := by
  simp [isIPv6Char, h]

theorem asciiHost_chars {h : String} (hh : asciiHost h = true) :
    ∀ c ∈ h.data, isIPv6Char c = true := by
  intro c hc
  simp only [asciiHost, asciiHostname, asciiIPv6, Bool.or_eq_true, Bool.and_eq_true,
    List.all_eq_true] at hh
  rcases hh with hh | hh
  · exact isIPv6Char_of_isHostnameChar (hh c hc)
  · exact hh.1 c hc

theorem asciiHost_no_open {h : String} (hh : asciiHost h = true) : '[' ∉ h.data :=
  fun hc => isIPv6Char_ne_open (asciiHost_chars hh _ hc) rfl

theorem asciiHost_no_close {h : String} (hh : asciiHost h = true) : ']' ∉ h.data :=
  fun hc => isIPv6Char_ne_close (asciiHost_chars hh _ hc) rfl

theorem isPort_chars {p : String} (hp : isPort p = true) :
    ':' ∉ p.data ∧ '[' ∉ p.data ∧ ']' ∉ p.data := by
  simp only [isPort, List.all_eq_true] at hp
  refine ⟨fun hc => ?_, fun hc => ?_, fun hc => ?_⟩
  · exact absurd (hp _ hc) (by decide)
  · exact absurd (hp _ hc) (by decide)
  · exact absurd (hp _ hc) (by decide)

/-- A bare ASCII host carries no port: `net.SplitHostPort` fails on it. -/
theorem carriesPort_asciiHost {h : String} (hh : asciiHost h = true) : carriesPort h = false := by
  have hopen := asciiHost_no_open hh
  simp only [asciiHost, asciiHostname, asciiIPv6, Bool.or_eq_true, Bool.and_eq_true,
    List.all_eq_true, decide_eq_true_eq] at hh
  rcases hh with hh | ⟨-, hcount⟩
  · have hc : ':' ∉ h.data := fun hc => isHostnameChar_ne_colon (hh _ hc) rfl
    simp [carriesPort, splitHostPort, lastIndexByte_eq_none hc]
  · have hmem : ':' ∈ h.data := List.count_pos_iff.mp (by omega)
    cases hl : lastIndexByte h.data ':' with
    | none =>
      have := lastIndexByte_isSome hmem
      simp [hl] at this
    | some i =>
      obtain ⟨h1, h2, h3⟩ := lastIndexByte_some hl
      have hhead : ¬ (h.data.head? = some '[') := by
        intro hd
        exact hopen (List.mem_of_mem_head? hd)
      have hcnt : List.count ':' (h.data.take i) + 1 = List.count ':' h.data := by
        conv_rhs => rw [← h1]
        simp [List.count_append, List.count_eq_zero_of_not_mem h2]
      have hin : ':' ∈ h.data.take i := List.count_pos_iff.mp (by omega)
      simp [carriesPort, splitHostPort, hl, hhead, indexByte_isSome hin]

theorem hasPrefix_open_false {h : String} (hh : '[' ∉ h.data) : hasPrefix h "[" = false := by
  unfold hasPrefix
  cases hd : h.data with
  | nil => rfl
  | cons x xs =>
    have : x ≠ '[' := fun e => hh (by simp [hd, e])
    show List.isPrefixOf ['['] (x :: xs) = false
    simp [List.isPrefixOf, this.symm]

/-- `authorityAddr` on an authority without a port whose IDNA form is not bracket-enclosed. -/
theorem authorityAddr_of_no_port (toASCII : String → Option String) (scheme authority : String)
    (hport : carriesPort authority = false)
    (hbr : bracketEnclosed (idnaForm toASCII authority) = false) :
    authorityAddr toASCII scheme authority =
      joinHostPort (idnaForm toASCII authority) (if scheme = "http" then "80" else "443") := by
  unfold carriesPort at hport
  unfold bracketEnclosed idnaForm at hbr
  unfold authorityAddr idnaForm
  cases hs : splitHostPort authority with
  | ok hp => simp [hs] at hport
  | error e =>
    cases ht : toASCII authority with
    | none =>
      simp only [ht, Option.getD_none] at hbr ⊢
      simp [hbr]
    | some a =>
      simp only [ht, Option.getD_some] at hbr ⊢
      simp [hbr]

/-- `authorityAddr` on an authority `host:port`, by the IDNA form of the host. -/
theorem authorityAddr_of_port (toASCII : String → Option String) (scheme authority h p : String)
    (hs : splitHostPort authority = .ok (h, p))
    (hbr : bracketEnclosed (idnaForm toASCII h) = false) :
    authorityAddr toASCII scheme authority = joinHostPort (idnaForm toASCII h) p := by
  unfold bracketEnclosed idnaForm at hbr
  unfold authorityAddr idnaForm
  cases ht : toASCII h with
  | none =>
    simp only [ht, Option.getD_none] at hbr
    simp [hs, ht, hbr]
  | some a =>
    simp only [ht, Option.getD_some] at hbr
    simp [hs, ht, hbr]

theorem authorityAddr_fixed (toASCII : String → Option String) (scheme h p : String)
    (hh : asciiHost h = true) (hp : isPort p = true) (hid : idnaForm toASCII h = h) :
    authorityAddr toASCII scheme (joinHostPort h p) = joinHostPort h p := by
  obtain ⟨hp0, hp1, hp2⟩ := isPort_chars hp
  have hs := splitHostPort_joinHostPort h p (asciiHost_no_open hh) (asciiHost_no_close hh)
    hp0 hp1 hp2
  have hbr : bracketEnclosed (idnaForm toASCII h) = false := by
    rw [hid]; simp [bracketEnclosed, hasPrefix_open_false (asciiHost_no_open hh)]
  rw [authorityAddr_of_port toASCII scheme _ h p hs hbr, hid]

/-! ## Lemmas on `idna.ToASCII` -/

namespace idna

theorem splitDots_ne_nil (l : List Char) : splitDots l ≠ [] := by
  induction l with
  | nil => simp [splitDots]
  | cons c cs ih =>
    unfold splitDots
    cases h : splitDots cs with
    | nil => exact absurd h ih
    | cons x xs => by_cases hc : c = '.' <;> simp [hc]

theorem joinDots_splitDots (l : List Char) : joinDots (splitDots l) = l := by
  induction l with
  | nil => rfl
  | cons c cs ih =>
    unfold splitDots
    cases h : splitDots cs with
    | nil => exact absurd h (splitDots_ne_nil cs)
    | cons x xs =>
      rw [h] at ih
      by_cases hc : c = '.'
      · simp only [hc, if_true]
        show [] ++ '.' :: joinDots (x :: xs) = '.' :: cs
        rw [ih]; rfl
      · simp only [hc, if_false]
        cases xs with
        | nil =>
          simp only [joinDots] at ih ⊢
          rw [ih]
        | cons y ys =>
          simp only [joinDots] at ih ⊢
          rw [← ih]; rfl

theorem mem_of_mem_splitDots (l : List Char) :
    ∀ label ∈ splitDots l, ∀ c ∈ label, c ∈ l := by
  induction l with
  | nil => intro label h c hc; simp [splitDots] at h; subst h; exact hc
  | cons a as ih =>
    intro label h c hc
    unfold splitDots at h
    cases hs : splitDots as with
    | nil => exact absurd hs (splitDots_ne_nil as)
    | cons x xs =>
      rw [hs] at h ih
      by_cases ha : a = '.'
      · simp only [ha, if_true] at h
        rcases List.mem_cons.mp h with h | h
        · subst h; simp at hc
        · exact List.mem_cons_of_mem _ (ih label h c hc)
      · simp only [ha, if_false] at h
        rcases List.mem_cons.mp h with h | h
        · subst h
          rcases List.mem_cons.mp hc with hc | hc
          · simp [hc]
          · exact List.mem_cons_of_mem _ (ih x (by simp) c hc)
        · exact List.mem_cons_of_mem _ (ih label (by simp [h]) c hc)

theorem processLabels_of_fixed (ls : List (List Char))
    (h : ∀ label ∈ ls, processLabel label = some label) : processLabels ls = some ls := by
  induction ls with
  | nil => rfl
  | cons x xs ih =>
    have h1 := h x (by simp)
    have h2 := ih (fun label hl => h label (by simp [hl]))
    simp [processLabels, h1, h2]

/-- `idna.ToASCII` returns an all-ASCII name without ACE labels as it is. -/
theorem ToASCII_of_plain (s : String) (hascii : ∀ c ∈ s.data, c.toNat < 0x80)
    (hace : ∀ label ∈ splitDots s.data, acePrefix.isPrefixOf label = false) :
    ToASCII s = some s := by
  have h : ∀ label ∈ splitDots s.data, processLabel label = some label := by
    intro label hl
    have h1 : label.all (fun r => decide (r.toNat < 0x80)) = true := by
      rw [List.all_eq_true]
      intro c hc
      simpa using hascii c (mem_of_mem_splitDots s.data label hl c hc)
    simp [processLabel, hace label hl, h1]
  simp [ToASCII, processLabels_of_fixed _ h, joinDots_splitDots]

end idna

theorem isIPv6Char_ascii {c : Char} (h : isIPv6Char c = true) : c.toNat < 0x80 := by
  simp only [isIPv6Char, isHostnameChar, Char.isAlphanum, Char.isAlpha, Char.isUpper,
    Char.isLower, Char.isDigit, Bool.or_eq_true, Bool.and_eq_true, decide_eq_true_eq,
    beq_iff_eq] at h
  rcases h with ((((((h | h) | h) | h) | h) | h) | h) | h
  · have h2 : c.val.toNat ≤ 90 := h.2
    show c.val.toNat < 128
    omega
  · have h2 : c.val.toNat ≤ 122 := h.2
    show c.val.toNat < 128
    omega
  · have h2 : c.val.toNat ≤ 57 := h.2
    show c.val.toNat < 128
    omega
  all_goals (subst h; decide)

/-- `authorityAddr` with the library's `idna.ToASCII` keeps `host:port` for every
ASCII host without an ACE label. -/
theorem authorityAddr_idna_plain (scheme h p : String)
    (hh : asciiHost h = true) (hp : isPort p = true)
    (hace : ∀ label ∈ idna.splitDots h.data, idna.acePrefix.isPrefixOf label = false) :
    authorityAddr idna.ToASCII scheme (joinHostPort h p) = joinHostPort h p := by
  have hid : idnaForm idna.ToASCII h = h := by
    simp [idnaForm, idna.ToASCII_of_plain h (fun c hc => isIPv6Char_ascii (asciiHost_chars hh c hc))
      hace]
  exact authorityAddr_fixed idna.ToASCII scheme h p hh hp hid

/-! ## Lemmas on `client` -/

section
variable {Cfg QC Sess Strm E : Type}

/-- `doRequest` ends in one of seven ways; each fixes the outcome and the calls made. -/
theorem client.doRequest_cases (env : Env Cfg QC Sess Strm E) (c : client Cfg QC Sess E)
    (tr : List (Event Cfg QC Sess Strm)) (req : Request) :
    ∃ evs, (c.doRequest env tr req).2 = tr ++ evs ∧ (∀ ev ∈ evs, Event.isDial ev = false) ∧
      ((c.doRequest env tr req).1 = .panic ∨
        (∃ e, (c.doRequest env tr req).1 = .ret none (some (.ext e))) ∨
        (∃ rsp, (c.doRequest env tr req).1 = .ret (some rsp) none)) := by
  cases hs : c.sess with
  | none => exact ⟨[], by simp [client.doRequest, hs]⟩
  | some sess =>
    cases ho : (env.openStreamSync tr sess).2 with
    | some e => exact ⟨[.openStreamSync sess], by simp [client.doRequest, hs, ho, Event.isDial]⟩
    | none =>
      cases hu : req.URL with
      | none => exact ⟨[.openStreamSync sess], by simp [client.doRequest, hs, ho, hu, Event.isDial]⟩
      | some u =>
        cases h1 : (env.openStreamSync tr sess).1 with
        | none =>
          exact ⟨[.openStreamSync sess], by simp [client.doRequest, hs, ho, hu, h1, Event.isDial]⟩
        | some str =>
          cases hw : env.write (tr ++ [.openStreamSync sess]) str ("GET " ++ u.Path ++ "\r\n") with
          | some e =>
            exact ⟨[.openStreamSync sess, .write str ("GET " ++ u.Path ++ "\r\n")],
              by simp [client.doRequest, hs, ho, hu, h1, hw, Event.isDial]⟩
          | none =>
            cases hc : env.close (tr ++ [.openStreamSync sess] ++
                [.write str ("GET " ++ u.Path ++ "\r\n")]) str with
            | some e =>
              exact ⟨[.openStreamSync sess, .write str ("GET " ++ u.Path ++ "\r\n"), .close str],
                by simp [client.doRequest, hs, ho, hu, h1, hw, Event.isDial] at hc ⊢; simp [hc]⟩
            | none =>
              exact ⟨[.openStreamSync sess, .write str ("GET " ++ u.Path ++ "\r\n"), .close str],
                by simp [client.doRequest, hs, ho, hu, h1, hw, Event.isDial] at hc ⊢; simp [hc]⟩

/-- An error returned by `client.RoundTrip` comes from quic-go. -/
theorem client.RoundTrip_error (env : Env Cfg QC Sess Strm E) (c : client Cfg QC Sess E)
    (tr : List (Event Cfg QC Sess Strm)) (req : Request) (rsp : Option (Response Strm))
    (text : String) :
    (c.RoundTrip env tr req).1 ≠ .ret rsp (some (.new text)) := by
  cases hd : (c.dial env tr).1.dialErr with
  | some e => simp [client.RoundTrip, hd]
  | none =>
    obtain ⟨evs, -, -, h⟩ := client.doRequest_cases env (c.dial env tr).1 (c.dial env tr).2 req
    simp only [client.RoundTrip, hd]
    rcases h with h | ⟨e, h⟩ | ⟨r, h⟩ <;> simp [h]

/-- Once the `sync.Once` has run, `client.RoundTrip` leaves the client as it is
and makes no dial. -/
theorem client.RoundTrip_of_once (env : Env Cfg QC Sess Strm E) (c : client Cfg QC Sess E)
    (tr : List (Event Cfg QC Sess Strm)) (req : Request) (hc : c.once = true) :
    (c.RoundTrip env tr req).2.1 = c ∧
      ∃ evs, (c.RoundTrip env tr req).2.2 = tr ++ evs ∧ ∀ ev ∈ evs, Event.isDial ev = false := by
  have hd : c.dial env tr = (c, tr) := by simp [client.dial, hc]
  cases he : c.dialErr with
  | some e => exact ⟨by simp [client.RoundTrip, hd, he], [], by simp [client.RoundTrip, hd, he]⟩
  | none =>
    obtain ⟨evs, h1, h2, -⟩ := client.doRequest_cases env c tr req
    exact ⟨by simp [client.RoundTrip, hd, he], evs, by simp [client.RoundTrip, hd, he, h1], h2⟩

/-- Once the dial has failed with `e`, `client.RoundTrip` returns `e` and does
nothing else. -/
theorem client.RoundTrip_of_dialErr (env : Env Cfg QC Sess Strm E) (c : client Cfg QC Sess E)
    (tr : List (Event Cfg QC Sess Strm)) (req : Request) (e : E) (hc : c.once = true)
    (he : c.dialErr = some e) :
    c.RoundTrip env tr req = (.ret none (some (.ext e)), c, tr) := by
  have hd : c.dial env tr = (c, tr) := by simp [client.dial, hc]
  simp [client.RoundTrip, hd, he]

/-- The first call on a client whose `sync.Once` has not run is a dial followed
by a call on the dialled client. -/
theorem client.RoundTrip_of_fresh (env : Env Cfg QC Sess Strm E) (c : client Cfg QC Sess E)
    (tr : List (Event Cfg QC Sess Strm)) (req : Request) (hc : c.once = false) :
    c.RoundTrip env tr req =
      client.RoundTrip env
        { c with once := true, sess := (env.dialAddr tr c.hostname c.tlsConf c.quicConf).1,
                 dialErr := (env.dialAddr tr c.hostname c.tlsConf c.quicConf).2 }
        (tr ++ [.dialAddr c.hostname c.tlsConf c.quicConf]) req := by
  simp [client.RoundTrip, client.dial, hc]

/-- A sequence of calls on a client whose `sync.Once` has run makes no dial. -/
theorem client.roundTrips_of_once (env : Env Cfg QC Sess Strm E) (reqs : List Request) :
    ∀ (c : client Cfg QC Sess E) (tr : List (Event Cfg QC Sess Strm)), c.once = true →
      ∃ evs, (c.roundTrips env tr reqs).2.2 = tr ++ evs ∧ ∀ ev ∈ evs, Event.isDial ev = false := by
  induction reqs with
  | nil => intro c tr _; exact ⟨[], by simp [client.roundTrips]⟩
  | cons req reqs ih =>
    intro c tr hc
    obtain ⟨h1, evs1, h2, h3⟩ := client.RoundTrip_of_once env c tr req hc
    obtain ⟨evs2, h4, h5⟩ := ih c (tr ++ evs1) hc
    refine ⟨evs1 ++ evs2, ?_, ?_⟩
    · simp only [client.roundTrips, h1, h2, h4, List.append_assoc]
    · intro ev hev
      rcases List.mem_append.mp hev with h | h
      · exact h3 ev h
      · exact h5 ev h

/-- A sequence of calls on a client whose dial has failed with `e`: every call
returns `e`, and nothing is called. -/
theorem client.roundTrips_of_dialErr (env : Env Cfg QC Sess Strm E) (c : client Cfg QC Sess E)
    (tr : List (Event Cfg QC Sess Strm)) (e : E) (hc : c.once = true) (he : c.dialErr = some e)
    (reqs : List Request) :
    c.roundTrips env tr reqs = (List.replicate reqs.length (.ret none (some (.ext e))), c, tr) := by
  induction reqs with
  | nil => simp [client.roundTrips]
  | cons req reqs ih =>
    simp [client.roundTrips, client.RoundTrip_of_dialErr env c tr req e hc he, ih,
      List.replicate_succ]

theorem dialCount_append_of_not_dial (tr evs : List (Event Cfg QC Sess Strm))
    (h : ∀ ev ∈ evs, Event.isDial ev = false) : dialCount (tr ++ evs) = dialCount tr := by
  have h0 : evs.countP Event.isDial = 0 := by
    rw [List.countP_eq_zero]
    intro ev hev
    simp [h ev hev]
  simp [dialCount, List.countP_append, h0]

end

/-! ## Claims on `authorityAddr` -/

/-- C2 (as amended). For every scheme and every authority that carries no port
(`net.SplitHostPort` fails on it) and whose IDNA-ASCII form `h` (the authority
itself when `idna.ToASCII` fails) is not a bracket-enclosed literal,
`authorityAddr(scheme, authority)` is `net.JoinHostPort(h, p)` with `p = "80"`
for the scheme "http" and `p = "443"` for every other scheme. In particular
`authorityAddr("https", "example.com") = "example.com:443"`, and the
unbracketed IPv6 authority "::1" yields "[::1]:443". -/
theorem authorityAddr_default_port :
    (∀ (toASCII : String → Option String) (scheme authority : String),
      carriesPort authority = false →
      bracketEnclosed (idnaForm toASCII authority) = false →
      authorityAddr toASCII scheme authority =
        joinHostPort (idnaForm toASCII authority) (if scheme = "http" then "80" else "443")) ∧
    authorityAddr idna.ToASCII "https" "example.com" = "example.com:443" ∧
    authorityAddr idna.ToASCII "https" "::1" = "[::1]:443" :=
  ⟨authorityAddr_of_no_port, by decide, by decide⟩

/-- C2 at the internationalized name "bücher.de" under the scheme "http": no
port, IDNA form "xn--bcher-kva.de", default port 80. -/
theorem authorityAddr_default_port_witness :
    carriesPort "bücher.de" = false ∧
    bracketEnclosed (idnaForm idna.ToASCII "bücher.de") = false ∧
    authorityAddr idna.ToASCII "http" "bücher.de" = "xn--bcher-kva.de:80" :=
  ⟨by decide, by decide,
    (authorityAddr_default_port.1 idna.ToASCII "http" "bücher.de" (by decide) (by decide)).trans
      (by decide)⟩

/-- C2 as stated fails at the authority "xn--[::1]-". `net.SplitHostPort` fails
on it (too many colons) and it is not bracket-enclosed, but `idna.ToASCII`
decodes the label to "[::1]", which is; `authorityAddr` returns "[::1]:443",
while `net.JoinHostPort` of the IDNA form and "443" is "[[::1]]:443". -/
theorem authorityAddr_default_port_counterexample :
    carriesPort "xn--[::1]-" = false ∧
    bracketEnclosed "xn--[::1]-" = false ∧
    idna.ToASCII "xn--[::1]-" = some "[::1]" ∧
    authorityAddr idna.ToASCII "https" "xn--[::1]-" = "[::1]:443" ∧
    joinHostPort (idnaForm idna.ToASCII "xn--[::1]-") "443" = "[[::1]]:443" ∧
    authorityAddr idna.ToASCII "https" "xn--[::1]-" ≠
      joinHostPort (idnaForm idna.ToASCII "xn--[::1]-") "443" := by
  decide

/-- C3 (as amended). For every ASCII host `h` (a hostname, an IPv4 address or an
IPv6 address) that `idna.ToASCII` returns as it is or rejects, every port `p`
and every scheme, `authorityAddr(scheme, net.JoinHostPort(h, p))` is
`net.JoinHostPort(h, p)`: no default port is added or substituted. So
`authorityAddr` is idempotent on its output, both for the authority `h:p` and
for the bare host `h`. -/
theorem authorityAddr_host_port (toASCII : String → Option String) (scheme h p : String)
    (hh : asciiHost h = true) (hp : isPort p = true) (hid : idnaForm toASCII h = h) :
    authorityAddr toASCII scheme (joinHostPort h p) = joinHostPort h p ∧
    authorityAddr toASCII scheme (authorityAddr toASCII scheme (joinHostPort h p)) =
      authorityAddr toASCII scheme (joinHostPort h p) ∧
    authorityAddr toASCII scheme (authorityAddr toASCII scheme h) =
      authorityAddr toASCII scheme h := by
  have h1 := authorityAddr_fixed toASCII scheme h p hh hp hid
  have hbr : bracketEnclosed (idnaForm toASCII h) = false := by
    rw [hid]; simp [bracketEnclosed, hasPrefix_open_false (asciiHost_no_open hh)]
  have h2 := authorityAddr_of_no_port toASCII scheme h (carriesPort_asciiHost hh) hbr
  have hport : isPort (if scheme = "http" then "80" else "443") = true := by
    split <;> decide
  refine ⟨h1, by rw [h1, h1], ?_⟩
  rw [h2, hid]
  exact authorityAddr_fixed toASCII scheme h _ hh hport hid

/-- C3 at the hostname "example.com" with port 8443 and at the IPv6 address
"::1" with port 443, under the scheme "http". -/
theorem authorityAddr_host_port_witness :
    (asciiHost "example.com" = true ∧ isPort "8443" = true ∧
      idnaForm idna.ToASCII "example.com" = "example.com" ∧
      authorityAddr idna.ToASCII "http" "example.com:8443" = "example.com:8443") ∧
    (asciiHost "::1" = true ∧ isPort "443" = true ∧ idnaForm idna.ToASCII "::1" = "::1" ∧
      authorityAddr idna.ToASCII "http" "[::1]:443" = "[::1]:443") :=
  ⟨⟨by decide, by decide, by decide,
      (authorityAddr_host_port idna.ToASCII "http" "example.com" "8443"
        (by decide) (by decide) (by decide)).1⟩,
    ⟨by decide, by decide, by decide,
      (authorityAddr_host_port idna.ToASCII "http" "::1" "443"
        (by decide) (by decide) (by decide)).1⟩⟩

/-- C3 as stated fails at the ASCII hostname "xn--bcher-KVA" with port 443:
`idna.ToASCII` decodes the label to "bücher" and encodes it again with
lower-case digits, so `authorityAddr` turns "xn--bcher-KVA:443" into
"xn--bcher-kva:443". -/
theorem authorityAddr_host_port_counterexample :
    asciiHost "xn--bcher-KVA" = true ∧ isPort "443" = true ∧
    joinHostPort "xn--bcher-KVA" "443" = "xn--bcher-KVA:443" ∧
    idna.ToASCII "xn--bcher-KVA" = some "xn--bcher-kva" ∧
    authorityAddr idna.ToASCII "https" "xn--bcher-KVA:443" = "xn--bcher-kva:443" ∧
    authorityAddr idna.ToASCII "https" (joinHostPort "xn--bcher-KVA" "443") ≠
      joinHostPort "xn--bcher-KVA" "443" := by
  decide

/-! ## Claims on `client` and `RoundTripper` -/

section
variable {Cfg QC Sess Strm E : Type}

/-- C4. Over every sequence of `client.RoundTrip` calls on one client,
`quic.DialAddr` is called at most once; on a client whose `sync.Once` has not
run, the first call makes that one dial, with the client's `hostname`, `tlsConf`
and `quicConf`, before anything else, and no later call dials; and if that dial
returned an error `e`, every call of the sequence returns a nil response and
`e`, and the dial is the only call made (no second dial, no stream opened). -/
theorem client_dials_once (env : Env Cfg QC Sess Strm E) (c : client Cfg QC Sess E)
    (tr : List (Event Cfg QC Sess Strm)) (reqs : List Request) :
    dialCount (c.roundTrips env tr reqs).2.2 ≤ dialCount tr + 1 ∧
    (c.once = false → reqs ≠ [] →
      ∃ rest, (c.roundTrips env tr reqs).2.2 =
          tr ++ Event.dialAddr c.hostname c.tlsConf c.quicConf :: rest ∧
        ∀ ev ∈ rest, Event.isDial ev = false) ∧
    (c.once = false → reqs ≠ [] →
      ∀ e, (env.dialAddr tr c.hostname c.tlsConf c.quicConf).2 = some e →
        (c.roundTrips env tr reqs).1 = List.replicate reqs.length (.ret none (some (.ext e))) ∧
        (c.roundTrips env tr reqs).2.2 = tr ++ [Event.dialAddr c.hostname c.tlsConf c.quicConf] ∧
        ∀ ev ∈ (c.roundTrips env tr reqs).2.2, Event.isOpenStream ev = true → ev ∈ tr) := by
  have key : c.once = false → reqs ≠ [] →
      c.roundTrips env tr reqs =
        client.roundTrips env
          { c with once := true, sess := (env.dialAddr tr c.hostname c.tlsConf c.quicConf).1,
                   dialErr := (env.dialAddr tr c.hostname c.tlsConf c.quicConf).2 }
          (tr ++ [.dialAddr c.hostname c.tlsConf c.quicConf]) reqs := by
    intro hc hne
    cases reqs with
    | nil => exact absurd rfl hne
    | cons req reqs =>
      simp only [client.roundTrips]
      rw [client.RoundTrip_of_fresh env c tr req hc]
  have second : c.once = false → reqs ≠ [] →
      ∃ rest, (c.roundTrips env tr reqs).2.2 =
          tr ++ Event.dialAddr c.hostname c.tlsConf c.quicConf :: rest ∧
        ∀ ev ∈ rest, Event.isDial ev = false := by
    intro hc hne
    obtain ⟨evs, h1, h2⟩ := client.roundTrips_of_once env reqs
      { c with once := true, sess := (env.dialAddr tr c.hostname c.tlsConf c.quicConf).1,
               dialErr := (env.dialAddr tr c.hostname c.tlsConf c.quicConf).2 }
      (tr ++ [.dialAddr c.hostname c.tlsConf c.quicConf]) rfl
    exact ⟨evs, by rw [key hc hne, h1]; simp, h2⟩
  refine ⟨?_, second, ?_⟩
  · cases hc : c.once with
    | true =>
      obtain ⟨evs, h1, h2⟩ := client.roundTrips_of_once env reqs c tr hc
      rw [h1, dialCount_append_of_not_dial tr evs h2]
      exact Nat.le_succ _
    | false =>
      cases reqs with
      | nil => simp [client.roundTrips]
      | cons req reqs =>
        obtain ⟨rest, h1, h2⟩ := second hc (List.cons_ne_nil _ _)
        have h3 : tr ++ Event.dialAddr c.hostname c.tlsConf c.quicConf :: rest =
            (tr ++ [Event.dialAddr c.hostname c.tlsConf c.quicConf]) ++ rest := by simp
        rw [h1, h3, dialCount_append_of_not_dial _ rest h2]
        simp [dialCount, List.countP_append, Event.isDial]
  · intro hc hne e he
    have h := client.roundTrips_of_dialErr env
      { c with once := true, sess := (env.dialAddr tr c.hostname c.tlsConf c.quicConf).1,
               dialErr := (env.dialAddr tr c.hostname c.tlsConf c.quicConf).2 }
      (tr ++ [.dialAddr c.hostname c.tlsConf c.quicConf]) e rfl he reqs
    rw [key hc hne, h]
    refine ⟨rfl, rfl, ?_⟩
    intro ev hev hopen
    rcases List.mem_append.mp hev with h | h
    · exact h
    · simp at h
      subst h
      simp [Event.isOpenStream] at hopen

/-- C1. `RoundTripper.RoundTrip` returns a nil response with the error
"only GET requests supported" exactly when `req.Method` is not "GET" (the empty
method included), and then the `RoundTripper` (its `clients` map with it) and the
trace of quic-go calls are what they were: no client is made, nothing is dialled,
no stream is opened. -/
theorem RoundTrip_only_GET (env : Env Cfg QC Sess Strm E) (toASCII : String → Option String)
    (h09alpn : String) (r : RoundTripper Cfg QC Sess E) (tr : List (Event Cfg QC Sess Strm))
    (req : Request) :
    ((RoundTripper.RoundTrip env toASCII h09alpn r tr req).1 =
        .ret none (some (.new "only GET requests supported")) ↔ req.Method ≠ "GET") ∧
    (req.Method ≠ "GET" →
      RoundTripper.RoundTrip env toASCII h09alpn r tr req =
        (.ret none (some (.new "only GET requests supported")), r, tr)) ∧
    (RoundTripper.RoundTrip env toASCII h09alpn
        r tr { req with Method := "" }).1 =
      .ret none (some (.new "only GET requests supported")) := by
  refine ⟨⟨?_, ?_⟩, ?_, ?_⟩
  · intro h hget
    unfold RoundTripper.RoundTrip at h
    rw [if_neg (not_not.mpr hget)] at h
    by_cases hl : r.mutexLocked = true
    · rw [if_pos hl] at h
      exact absurd h (by simp)
    · rw [if_neg hl] at h
      simp only [] at h
      split at h
      · exact client.RoundTrip_error env _ tr req _ _ h
      · split at h
        · exact absurd h (by simp)
        · exact client.RoundTrip_error env _ tr req _ _ h
  · intro h
    simp [RoundTripper.RoundTrip, h]
  · intro h
    simp [RoundTripper.RoundTrip, h]
  · simp [RoundTripper.RoundTrip]

end

/-- C4 at a client whose dial fails with "timeout", over three calls: each
returns a nil response and "timeout", and the trace holds the one dial. -/
theorem client_dials_once_witness :
    (freshClient "example.com:443").once = false ∧
    ((envDialFails "timeout").dialAddr [] "example.com:443"
        (freshClient "example.com:443").tlsConf ()).2 = some "timeout" ∧
    ((freshClient "example.com:443").roundTrips (envDialFails "timeout") []
        [⟨"GET", some ⟨"example.com", "/a"⟩⟩, ⟨"GET", none⟩, ⟨"GET", some ⟨"example.com", "/b"⟩⟩]).1 =
      [.ret none (some (.ext "timeout")), .ret none (some (.ext "timeout")),
        .ret none (some (.ext "timeout"))] ∧
    ((freshClient "example.com:443").roundTrips (envDialFails "timeout") []
        [⟨"GET", some ⟨"example.com", "/a"⟩⟩, ⟨"GET", none⟩, ⟨"GET", some ⟨"example.com", "/b"⟩⟩]).2.2 =
      [Event.dialAddr "example.com:443" (freshClient "example.com:443").tlsConf ()] :=
  have h := (client_dials_once (envDialFails "timeout") (freshClient "example.com:443") []
    [⟨"GET", some ⟨"example.com", "/a"⟩⟩, ⟨"GET", none⟩, ⟨"GET", some ⟨"example.com", "/b"⟩⟩]).2.2
    rfl (by simp) "timeout" rfl
  ⟨rfl, rfl, h.1, h.2.1⟩

/-- C1 at a POST request on a fresh `RoundTripper`: the error is returned, the
`RoundTripper` keeps its nil `clients` map and the trace stays empty. -/
theorem RoundTrip_only_GET_witness :
    (⟨"POST", some ⟨"example.com", "/"⟩⟩ : Request).Method ≠ "GET" ∧
    RoundTripper.RoundTrip envOK idna.ToASCII "hq-29" freshRoundTripper []
        ⟨"POST", some ⟨"example.com", "/"⟩⟩ =
      (.ret none (some (.new "only GET requests supported")), freshRoundTripper, []) :=
  ⟨by decide,
    (RoundTrip_only_GET envOK idna.ToASCII "hq-29" freshRoundTripper []
      ⟨"POST", some ⟨"example.com", "/"⟩⟩).2.1 (by decide)⟩

/-! ## The embedding at work -/

/-- A GET on a fresh `RoundTripper` in an environment where every call succeeds:
the client for "example.com:443" is dialled with the ALPN set, one stream carries
the request line, and the response wraps that stream. -/
theorem RoundTrip_GET_run :
    (RoundTripper.RoundTrip envOK idna.ToASCII "hq-29" freshRoundTripper []
        ⟨"GET", some ⟨"example.com", "/index.html"⟩⟩).1 =
      .ret (some ⟨"HTTP/0.9", 0, 9, ⟨"GET", some ⟨"example.com", "/index.html"⟩⟩, 1⟩) none ∧
    (RoundTripper.RoundTrip envOK idna.ToASCII "hq-29" freshRoundTripper []
        ⟨"GET", some ⟨"example.com", "/index.html"⟩⟩).2.2 =
      [.dialAddr "example.com:443" (some ⟨["hq-29"], ()⟩) (), .openStreamSync 1,
        .write 1 "GET /index.html\r\n", .close 1] := by
  decide

/-- A `%` alone does not make `net.JoinHostPort` add brackets, a colon does: the
authority "a%b" gets the default port as it is, an IPv6 address with a zone is
bracketed. -/
theorem authorityAddr_zone_run :
    joinHostPort "fe80%eth0" "1" = "fe80%eth0:1" ∧
    authorityAddr idna.ToASCII "https" "a%b" = "a%b:443" ∧
    authorityAddr idna.ToASCII "https" "fe80::1%eth0" = "[fe80::1%eth0]:443" := by
  decide

/-- Two GETs on one client in that environment: one dial, then a stream each. -/
theorem roundTrips_run :
    ((freshClient "example.com:443").roundTrips envOK []
        [⟨"GET", some ⟨"example.com", "/a"⟩⟩, ⟨"GET", some ⟨"example.com", "/b"⟩⟩]).2.2 =
      [.dialAddr "example.com:443" (some ⟨["hq-29"], ()⟩) (), .openStreamSync 1,
        .write 1 "GET /a\r\n", .close 1, .openStreamSync 1, .write 4 "GET /b\r\n", .close 4] := by
  decide

end http09
